import Mathlib

/-!
Verification of the async-pipeline-pattern core of `rust-magic-patterns`.

The embedding follows `src/async-pipeline-pattern/src/main.rs` (the
hand-written tokio pipeline: bounded mpsc channels, a sequential download
stage, a `FuturesUnordered` worker pool with a `biased` select, a sequential
save stage, and a final `try_join!`), and
`src/async-pipeline-pattern/src/bench.rs` (the stream-combinator and
`pumps` pipelines over `work i d = i`).  Parts of the pipeline engine that
live in the external `pumps` crate (the ordered scheduler and the builder)
are modelled from the spec and marked as such.
-/

namespace AsyncPipeline

/-- State of an unordered stage worker pool, from `main.rs` lines 51-73:
`upstream` is the FIFO sequence of items not yet pulled from the upstream
channel (the channel closes once the list is exhausted), `inflight` holds
the results of the in-flight tasks in admission order (the `FuturesUnordered`
set, with each task's eventual result), `output` is the sequence already sent
downstream. -/
structure PoolState (α β : Type) where
  upstream : List α
  inflight : List β
  output : List β
  deriving Repr, DecidableEq

/-- Initial pool state: everything still upstream. -/
def PoolState.init (input : List α) : PoolState α β :=
  ⟨input, [], []⟩

/-- One scheduler step of the unordered worker pool of `main.rs` lines 55-71:
either pull the next upstream item into a new task (`futures.push`, guarded
by `in_progress_len < N`), or a nondeterministically chosen in-flight task
completes and its result is sent downstream (`futures.next` followed by
`processed_sender.send`).  The completion choice being an arbitrary list
position models the arbitrary per-item latencies. -/
inductive PoolStep (f : α → β) (N : Nat) : PoolState α β → PoolState α β → Prop
  | admitItem (x : α) (rest : List α) (s : PoolState α β)
      (hup : s.upstream = x :: rest) (hlen : s.inflight.length < N) :
      PoolStep f N s ⟨rest, s.inflight ++ [f x], s.output⟩
  | drain (l1 l2 : List β) (b : β) (s : PoolState α β)
      (hin : s.inflight = l1 ++ b :: l2) :
      PoolStep f N s ⟨s.upstream, l1 ++ l2, s.output ++ [b]⟩

/-- A complete run of an unordered stage: from the initial state to the
terminal state (upstream closed and drained, in-flight set empty, downstream
channel about to be closed), producing `out` downstream. -/
def PoolReaches (f : α → β) (N : Nat) (input : List α) (out : List β) : Prop :=
  Relation.ReflTransGen (PoolStep f N) (PoolState.init input) ⟨[], [], out⟩

/-- The bag of results a pool state still owes or has delivered. -/
def poolBag (f : α → β) (s : PoolState α β) : Multiset β :=
  (s.output : Multiset β) + (s.inflight : Multiset β) + ((s.upstream.map f : List β) : Multiset β)

/-- Measure that strictly decreases at every scheduler step of an unordered
worker pool: each item is admitted once and drained once. -/
def poolMeasure (s : PoolState α β) : Nat :=
  2 * s.upstream.length + s.inflight.length

/-- Modelled from the spec: the `Ordered(N)` scheduler of §4.2 lives in the
external `pumps` crate (`Concurrency::concurrent_ordered`, used by
`bench.rs`) and in `futures`' `buffered` combinator
(`rust-stream-visualized/src/main.rs`), not under `src/`.  State of an
ordered stage: `queue` holds the in-flight tasks in admission order (their
sequence numbers are their queue positions), each tagged with whether its
computation has completed; `output` is what was already sent downstream. -/
structure OrdState (α β : Type) where
  upstream : List α
  queue : List (β × Bool)
  output : List β
  deriving Repr, DecidableEq

/-- Initial ordered-stage state. -/
def OrdState.init (input : List α) : OrdState α β :=
  ⟨input, [], []⟩

/-- Modelled from the spec: one step of the `Ordered(N)` scheduler of §4.2.
Items are admitted in upstream order while fewer than `N` are in flight; an
arbitrary in-flight task may complete (arbitrary latencies); a completed
task's result is sent downstream only when it is at the head of the queue. -/
inductive OrdStep (f : α → β) (N : Nat) : OrdState α β → OrdState α β → Prop
  | admitItem (x : α) (rest : List α) (s : OrdState α β)
      (hup : s.upstream = x :: rest) (hlen : s.queue.length < N) :
      OrdStep f N s ⟨rest, s.queue ++ [(f x, false)], s.output⟩
  | complete (q1 q2 : List (β × Bool)) (b : β) (s : OrdState α β)
      (hq : s.queue = q1 ++ (b, false) :: q2) :
      OrdStep f N s ⟨s.upstream, q1 ++ (b, true) :: q2, s.output⟩
  | drainHead (b : β) (rest : List (β × Bool)) (s : OrdState α β)
      (hq : s.queue = (b, true) :: rest) :
      OrdStep f N s ⟨s.upstream, rest, s.output ++ [b]⟩

/-- A complete run of an ordered stage producing `out` downstream. -/
def OrdReaches (f : α → β) (N : Nat) (input : List α) (out : List β) : Prop :=
  Relation.ReflTransGen (OrdStep f N) (OrdState.init input) ⟨[], [], out⟩

/-- The sequence an ordered-stage state still owes plus what it delivered,
in order.  Every step preserves it exactly (not just as a multiset). -/
def ordSeq (f : α → β) (s : OrdState α β) : List β :=
  s.output ++ s.queue.map Prod.fst ++ s.upstream.map f

/-- The four possible outcomes of one iteration of the select loop in
`main.rs` lines 55-71: take in a new upstream item, drain a completed task,
break out of the loop, or keep waiting. -/
inductive SelectBranch : Type
  | admitItem
  | drain
  | exit
  | wait
  deriving Repr, DecidableEq

/-- The branch taken by the `tokio::select!` of `main.rs` lines 58-71.  With
`biased;` the branches are polled in the order written: the
`image_receiver.recv()` branch (enabled while `in_progress_len < N`, with
`N = 4` in the source) is polled before the `futures.next()` branch
(enabled while `in_progress_len > 0`); `else => break` fires when every
branch is disabled or its pattern fails.  `hasItem` says an upstream item is
ready to receive, `upstreamDone` that the upstream channel is closed and
empty (`recv` resolves to `None`), `completedReady` that some in-flight
future has completed, and `len` is `in_progress_len`. -/
def selectBranch (N : Nat) (hasItem upstreamDone completedReady : Bool) (len : Nat) :
    SelectBranch :=
  if hasItem && decide (len < N) then .admitItem
  else if completedReady && decide (0 < len) then .drain
  else if (upstreamDone || decide (N ≤ len)) && decide (len = 0) then .exit
  else .wait

/-- Outcome and settling instant of one spawned stage task, as seen by
`tokio::try_join!` (`main.rs` line 97): `Except.error` models a failed
`JoinHandle`.  `errEvents` lists a task's failure as a (time, branch index,
error) event. -/
def errEvents (i : Nat) (t : Nat) (r : Except ε Unit) : List (Nat × Nat × ε) :=
  match r with
  | .ok _ => []
  | .error e => [(t, i, e)]

/-- The earliest failure event: `try_join!` polls its branches in written
order on every wake, so the failure with the smallest settling time wins and
simultaneous failures resolve to the lowest-numbered branch (the fold keeps
the earlier-listed event on ties). -/
def firstFailure (l : List (Nat × Nat × ε)) : Option (Nat × Nat × ε) :=
  l.foldl
    (fun acc p =>
      match acc with
      | none => some p
      | some q => if p.1 < q.1 then some p else some q)
    none

/-- Semantics of `tokio::try_join!(h1, h2, h3)` at `main.rs` line 97: the
joined future resolves to the first failure in time among the three stage
tasks, or to success once all three complete cleanly. -/
def tryJoin3 (r1 r2 r3 : Except ε Unit) (t1 t2 t3 : Nat) : Except ε Unit :=
  match firstFailure (errEvents 1 t1 r1 ++ errEvents 2 t2 r2 ++ errEvents 3 t3 r3) with
  | none => .ok ()
  | some (_, _, e) => .error e

/-- Bounded mpsc channel, from `main.rs` lines 36-39 and spec §4.1: a FIFO
buffer, a fixed capacity (100 in the source), and a closed flag (a tokio
channel closes when its sender is dropped, `main.rs` line 91).  `recv` on an
open empty channel suspends; the `none` result of `Channel.recv` is the
end-of-stream signal and is only meaningful once the channel is closed. -/
structure Channel (α : Type) where
  capacity : Nat
  buffer : List α
  closed : Bool
  deriving Repr, DecidableEq

/-- Result of a send attempt: enqueued, suspended because the buffer is at
capacity, or failed because the channel is closed (`SendError`). -/
inductive SendResult (α : Type) : Type
  | sent (c : Channel α)
  | wouldBlock
  | closedError
  deriving Repr, DecidableEq

/-- Sending on a channel (`sender.send(..).await` in `main.rs`): fails
deterministically on a closed channel, enqueues at the back while below
capacity, suspends otherwise. -/
def Channel.send (c : Channel α) (x : α) : SendResult α :=
  if c.closed then .closedError
  else if c.buffer.length < c.capacity then .sent { c with buffer := c.buffer ++ [x] }
  else .wouldBlock

/-- Receiving (`receiver.recv().await`): returns the oldest buffered item,
or the end-of-stream signal when the buffer is empty and the channel closed. -/
def Channel.recv (c : Channel α) : Option α × Channel α :=
  match c.buffer with
  | [] => (none, c)
  | x :: rest => (some x, { c with buffer := rest })

/-- Closing a channel (dropping the sender, `main.rs` line 91). -/
def Channel.close (c : Channel α) : Channel α :=
  { c with closed := true }

/-- `k` consecutive receive attempts. -/
def Channel.recvN : Nat → Channel α → List (Option α) × Channel α
  | 0, c => ([], c)
  | Nat.succ n, c =>
      let p := c.recv
      let q := Channel.recvN n p.2
      (p.1 :: q.1, q.2)

/-- Modelled from the spec: the `pumps` pipeline builder
(`Pipeline::from_iter(..).map(..).backpressure(..).build()` used in
`bench.rs`) is external to `src/`; §4.3 and §7 describe its configuration
surface.  One stage configuration: worker concurrency, ordering policy, and
an optional backpressure capacity. -/
structure StageConfig where
  concurrency : Nat
  ordered : Bool
  backpressure : Option Nat
  deriving Repr, DecidableEq

/-- Modelled from the spec: the `build()`-time error taxonomy of §7 —
`MisconfiguredStage` carries the index of the offending stage. -/
inductive BuildError : Type
  | misconfiguredStage (idx : Nat)
  deriving Repr, DecidableEq

/-- Modelled from the spec: a stage is valid when its concurrency is at
least 1 and its backpressure capacity, when specified, is at least 1. -/
def StageConfig.valid (st : StageConfig) : Bool :=
  decide (1 ≤ st.concurrency) &&
    (match st.backpressure with
     | none => true
     | some cap => decide (1 ≤ cap))

/-- Modelled from the spec: scan the stages in order for the first invalid
one, reporting its index. -/
def buildScan : Nat → List StageConfig → Except BuildError Unit
  | _, [] => .ok ()
  | i, st :: rest =>
      if st.valid then buildScan (i + 1) rest
      else .error (.misconfiguredStage i)

/-- Modelled from the spec: `build()` validates every stage before starting
any of them; only a fully valid configuration yields a runnable pipeline
(represented by its stage list). -/
def build (stages : List StageConfig) : Except BuildError (List StageConfig) :=
  match buildScan 0 stages with
  | .ok _ => .ok stages
  | .error e => .error e

/-- The identity worker of the benchmark, from `bench.rs` lines 12-17:
`work(i, duration)` sleeps for `duration` and returns `i` unchanged. -/
def work (i : Nat) (duration : Nat) : Nat :=
  i

/-- An image, from `main.rs` lines 6-9 (`data: Vec<u8>` as a list of bytes). -/
structure Image where
  url : String
  data : List Nat
  deriving Repr, DecidableEq

/-- From `main.rs` lines 11-16, with the sleep and logging dropped:
downloading yields an image with the given url and placeholder data `[0]`. -/
def download_image (url : String) : Image :=
  { url := url, data := [0] }

/-- From `main.rs` lines 18-26: processing keeps the url and replaces the
data with `[1]`. -/
def process_image (image : Image) : Image :=
  { url := image.url, data := [1] }

end AsyncPipeline

namespace AsyncPipeline

theorem poolStep_bag_eq {f : α → β} {N : Nat} {s s' : PoolState α β}
    (h : PoolStep f N s s') : poolBag f s' = poolBag f s := by
  cases h with
  | admitItem x rest s hup hlen =>
      simp only [poolBag, hup, List.map_cons, ← Multiset.coe_add, ← Multiset.cons_coe,
        ← Multiset.singleton_add, Multiset.coe_nil]
      abel
  | drain l1 l2 b s hin =>
      simp only [poolBag, hin, ← Multiset.coe_add, ← Multiset.cons_coe,
        ← Multiset.singleton_add, Multiset.coe_nil]
      abel

theorem poolReaches_bag {f : α → β} {N : Nat} {s s' : PoolState α β}
    (h : Relation.ReflTransGen (PoolStep f N) s s') : poolBag f s' = poolBag f s := by
  induction h with
  | refl => rfl
  | tail _ hstep ih => rw [poolStep_bag_eq hstep, ih]

/-- Any complete run of an unordered stage delivers downstream a permutation
of the mapped input: no item is lost or duplicated. -/
theorem poolReaches_perm {f : α → β} {N : Nat} {input : List α} {out : List β}
    (h : PoolReaches f N input out) : out.Perm (input.map f) := by
  have hbag := poolReaches_bag h
  simp only [poolBag, PoolState.init, List.map_nil, Multiset.coe_nil] at hbag
  rw [← Multiset.coe_eq_coe]
  simpa using hbag

/-- The sequential schedule: take in one item, let it complete, repeat.  It
witnesses that every unordered stage with at least one worker slot has a
complete run. -/
theorem pool_seq_reaches_aux (f : α → β) (N : Nat) (hN : 1 ≤ N) (input : List α)
    (acc : List β) :
    Relation.ReflTransGen (PoolStep f N) ⟨input, [], acc⟩ ⟨[], [], acc ++ input.map f⟩ := by
  induction input generalizing acc with
  | nil => simpa using Relation.ReflTransGen.refl
  | cons x rest ih =>
      have h1 : PoolStep f N ⟨x :: rest, [], acc⟩ ⟨rest, [f x], acc⟩ := by
        simpa using PoolStep.admitItem x rest ⟨x :: rest, [], acc⟩ rfl (by simpa using hN)
      have h2 : PoolStep f N ⟨rest, [f x], acc⟩ ⟨rest, [], acc ++ [f x]⟩ := by
        simpa using PoolStep.drain [] [] (f x) ⟨rest, [f x], acc⟩ (by simp)
      exact Relation.ReflTransGen.head h1 (Relation.ReflTransGen.head h2
        (by simpa using ih (acc ++ [f x])))

theorem pool_seq_reaches (f : α → β) (N : Nat) (hN : 1 ≤ N) (input : List α) :
    PoolReaches f N input (input.map f) := by
  simpa [PoolReaches, PoolState.init] using pool_seq_reaches_aux f N hN input []

/-- Gauss sum for `List.range`, the expected output sum of the identity
benchmark pipelines (`assert_eq!(sum, (n - 1) * n / 2)` in `bench.rs`). -/
theorem list_range_sum (n : Nat) : (List.range n).sum = (n - 1) * n / 2 := by
  induction n with
  | zero => simp
  | succ m ih =>
      rw [List.range_succ, List.sum_append]
      simp only [List.sum_cons, List.sum_nil, add_zero, ih, Nat.succ_sub_one]
      rcases m with _ | k
      · simp
      · simp only [Nat.succ_sub_one]
        have h1 : (k + 1) * (k + 1 + 1) = k * (k + 1) + 2 * (k + 1) := by ring
        rw [h1, Nat.add_mul_div_left _ _ (by norm_num : 0 < 2)]

theorem ordStep_seq_eq {f : α → β} {N : Nat} {s s' : OrdState α β}
    (h : OrdStep f N s s') : ordSeq f s' = ordSeq f s := by
  cases h with
  | admitItem x rest s hup hlen => simp [ordSeq, hup]
  | complete q1 q2 b s hq => simp [ordSeq, hq]
  | drainHead b rest s hq => simp [ordSeq, hq]

theorem ordReaches_seq {f : α → β} {N : Nat} {s s' : OrdState α β}
    (h : Relation.ReflTransGen (OrdStep f N) s s') : ordSeq f s' = ordSeq f s := by
  induction h with
  | refl => rfl
  | tail _ hstep ih => rw [ordStep_seq_eq hstep, ih]

/-- Any complete run of an ordered stage delivers exactly the mapped input,
in input order. -/
theorem ordReaches_eq {f : α → β} {N : Nat} {input : List α} {out : List β}
    (h : OrdReaches f N input out) : out = input.map f := by
  have hseq := ordReaches_seq h
  simpa [ordSeq, OrdState.init] using hseq

/-- Sequential schedule for an ordered stage: one item in flight at a time. -/
theorem ord_seq_reaches_aux (f : α → β) (N : Nat) (hN : 1 ≤ N) (input : List α)
    (acc : List β) :
    Relation.ReflTransGen (OrdStep f N) ⟨input, [], acc⟩ ⟨[], [], acc ++ input.map f⟩ := by
  induction input generalizing acc with
  | nil => simpa using Relation.ReflTransGen.refl
  | cons x rest ih =>
      have h1 : OrdStep f N ⟨x :: rest, [], acc⟩ ⟨rest, [(f x, false)], acc⟩ := by
        simpa using OrdStep.admitItem x rest ⟨x :: rest, [], acc⟩ rfl (by simpa using hN)
      have h2 : OrdStep f N ⟨rest, [(f x, false)], acc⟩ ⟨rest, [(f x, true)], acc⟩ := by
        simpa using OrdStep.complete [] [] (f x) ⟨rest, [(f x, false)], acc⟩ (by simp)
      have h3 : OrdStep f N ⟨rest, [(f x, true)], acc⟩ ⟨rest, [], acc ++ [f x]⟩ :=
        OrdStep.drainHead (f x) [] ⟨rest, [(f x, true)], acc⟩ rfl
      exact Relation.ReflTransGen.head h1 (Relation.ReflTransGen.head h2
        (Relation.ReflTransGen.head h3 (by simpa using ih (acc ++ [f x]))))

theorem ord_seq_reaches (f : α → β) (N : Nat) (hN : 1 ≤ N) (input : List α) :
    OrdReaches f N input (input.map f) := by
  simpa [OrdReaches, OrdState.init] using ord_seq_reaches_aux f N hN input []

theorem poolStep_len_le {f : α → β} {N : Nat} {s s' : PoolState α β}
    (h : PoolStep f N s s') (hs : s.inflight.length ≤ N) : s'.inflight.length ≤ N := by
  cases h with
  | admitItem x rest s hup hlen =>
      simp only [List.length_append, List.length_cons, List.length_nil]
      omega
  | drain l1 l2 b s hin =>
      simp only [hin, List.length_append, List.length_cons] at hs ⊢
      omega

theorem recvN_spec (k : Nat) (c : Channel α) :
    (Channel.recvN k c).1 =
      (c.buffer.take k).map some ++ List.replicate (k - c.buffer.length) none := by
  induction k generalizing c with
  | zero => simp [Channel.recvN]
  | succ n ih =>
      rcases hb : c.buffer with _ | ⟨x, rest⟩
      · simp [Channel.recvN, Channel.recv, hb, ih, List.replicate_succ]
      · have := ih { c with buffer := rest }
        simp [Channel.recvN, Channel.recv, hb, this, Nat.succ_sub_succ]

theorem buildScan_invalid (stages : List StageConfig) (k : Nat)
    (h : ∃ st ∈ stages, st.valid = false) :
    ∃ i, buildScan k stages = Except.error (BuildError.misconfiguredStage i) := by
  induction stages generalizing k with
  | nil => simp at h
  | cons st rest ih =>
      rcases hv : st.valid with _ | _
      · exact ⟨k, by simp [buildScan, hv]⟩
      · rcases h with ⟨st', hmem, hbad⟩
        rcases List.mem_cons.mp hmem with heq | hmem'
        · rw [heq, hv] at hbad
          exact Bool.noConfusion hbad
        · rcases ih (k + 1) ⟨st', hmem', hbad⟩ with ⟨i, hi⟩
          exact ⟨i, by simp [buildScan, hv, hi]⟩

/-- Claim C1: for every finite input run through the pipeline with no worker
failures, the multiset of items received at the sink equals the multiset
obtained by applying the stages' transformations to the input — no item is
lost or duplicated; in particular, for the integers `0..n-1` through three
identity-computing concurrent stages the sum of the outputs equals
`(n-1)*n/2` (499500 for `n = 1000`). -/
theorem C1_sink_multiset_preserved :
    (∀ {α β γ δ : Type} (f1 : α → β) (f2 : β → γ) (f3 : γ → δ)
        (N1 N2 N3 : Nat) (input : List α) (out1 : List β) (out2 : List γ) (out3 : List δ),
        PoolReaches f1 N1 input out1 → PoolReaches f2 N2 out1 out2 →
        PoolReaches f3 N3 out2 out3 →
        out3.Perm (((input.map f1).map f2).map f3)) ∧
    (∀ (n N1 N2 N3 : Nat) (out1 out2 out3 : List Nat),
        PoolReaches id N1 (List.range n) out1 → PoolReaches id N2 out1 out2 →
        PoolReaches id N3 out2 out3 →
        out3.sum = (n - 1) * n / 2) ∧
    (∀ (N1 N2 N3 : Nat) (out1 out2 out3 : List Nat),
        PoolReaches id N1 (List.range 1000) out1 → PoolReaches id N2 out1 out2 →
        PoolReaches id N3 out2 out3 → out3.sum = 499500) := by
  have main : ∀ {α β γ δ : Type} (f1 : α → β) (f2 : β → γ) (f3 : γ → δ)
      (N1 N2 N3 : Nat) (input : List α) (out1 : List β) (out2 : List γ) (out3 : List δ),
      PoolReaches f1 N1 input out1 → PoolReaches f2 N2 out1 out2 →
      PoolReaches f3 N3 out2 out3 →
      out3.Perm (((input.map f1).map f2).map f3) := by
    intro α β γ δ f1 f2 f3 N1 N2 N3 input out1 out2 out3 h1 h2 h3
    have p1 := poolReaches_perm h1
    have p2 := poolReaches_perm h2
    have p3 := poolReaches_perm h3
    exact p3.trans ((p2.map f3).trans ((p1.map f2).map f3))
  have sums : ∀ (n N1 N2 N3 : Nat) (out1 out2 out3 : List Nat),
      PoolReaches id N1 (List.range n) out1 → PoolReaches id N2 out1 out2 →
      PoolReaches id N3 out2 out3 → out3.sum = (n - 1) * n / 2 := by
    intro n N1 N2 N3 out1 out2 out3 h1 h2 h3
    have hperm := main id id id N1 N2 N3 (List.range n) out1 out2 out3 h1 h2 h3
    simp only [List.map_id] at hperm
    rw [hperm.sum_eq, list_range_sum]
  refine ⟨main, sums, ?_⟩
  intro N1 N2 N3 out1 out2 out3 h1 h2 h3
  rw [sums 1000 N1 N2 N3 out1 out2 out3 h1 h2 h3]

/-- Witness for C1 at the benchmark input: identity stages with one worker
slot each over `0..999`. -/
theorem C1_sink_multiset_preserved_witness : (List.range 1000).sum = 499500 := by
  have hrun2 : ∀ l : List Nat, PoolReaches id 1 l l := by
    intro l
    simpa using pool_seq_reaches id 1 (by norm_num) l
  exact C1_sink_multiset_preserved.2.2 1 1 1 _ _ _ (hrun2 _) (hrun2 _) (hrun2 _)

/-- Claim C2: for every N ≥ 1 and every assignment of per-item completion
latencies, an `Ordered(N)` stage's output sequence equals its input sequence
exactly; a completed task's result is sent downstream only when it is at the
head of the queue. -/
theorem C2_ordered_stage_preserves_order :
    (∀ {α β : Type} (f : α → β) (N : Nat), 1 ≤ N → ∀ (input : List α) (out : List β),
        OrdReaches f N input out → out = input.map f) ∧
    (∀ {α β : Type} (f : α → β) (N : Nat) (s s' : OrdState α β),
        OrdStep f N s s' → s'.output ≠ s.output →
        ∃ b rest, s.queue = (b, true) :: rest ∧ s'.output = s.output ++ [b]) := by
  constructor
  · intro α β f N _ input out h
    exact ordReaches_eq h
  · intro α β f N s s' hstep hne
    cases hstep with
    | admitItem x rest s hup hlen => exact absurd rfl hne
    | complete q1 q2 b s hq => exact absurd rfl hne
    | drainHead b rest s hq => exact ⟨b, rest, hq, rfl⟩

/-- Witness for C2: an `Ordered(2)` stage over `[0, 1, 2]` with `Nat.succ`
as the worker outputs exactly `[1, 2, 3]`. -/
theorem C2_ordered_stage_preserves_order_witness :
    ([1, 2, 3] : List Nat) = [0, 1, 2].map Nat.succ := by
  refine C2_ordered_stage_preserves_order.1 Nat.succ 2 (by norm_num) [0, 1, 2] [1, 2, 3] ?_
  simpa using ord_seq_reaches Nat.succ 2 (by norm_num) [0, 1, 2]

/-- Claim C3 counterexample: with an upstream item ready, a completed
in-flight task ready, and one of the four slots in use (`main.rs` uses
`N = 4`), the `biased` select admits the new item — it does not drain the
completed task first, refuting the claim that a completed task is always
drained before a new item is admitted when both are ready. -/
theorem C3_drain_first_counterexample :
    selectBranch 4 true false true 1 = SelectBranch.admitItem ∧
    selectBranch 4 true false true 1 ≠ SelectBranch.drain := by
  constructor
  · rfl
  · intro h
    simp [selectBranch] at h

/-- Claim C3 (amended): when both a new upstream item and a completed
in-flight task are ready, the pool admits the new item first whenever fewer
than N tasks are in flight; it drains the completed task before admitting
only when the pool is already full (N tasks in flight). -/
theorem C3_biased_admission_priority (N len : Nat) (upstreamDone : Bool)
    (hlen : 0 < len) :
    (len < N → selectBranch N true upstreamDone true len = SelectBranch.admitItem) ∧
    (N ≤ len → selectBranch N true upstreamDone true len = SelectBranch.drain) := by
  constructor
  · intro h
    simp [selectBranch, h]
  · intro h
    have h2 : ¬ len < N := not_lt.mpr h
    simp [selectBranch, h2, hlen]

/-- Witness for the amended C3 at the source's `N = 4`: below capacity the
pool admits; at capacity it drains. -/
theorem C3_biased_admission_priority_witness :
    selectBranch 4 true false true 1 = SelectBranch.admitItem ∧
    selectBranch 4 true false true 4 = SelectBranch.drain :=
  ⟨(C3_biased_admission_priority 4 1 false (by norm_num)).1 (by norm_num),
   (C3_biased_admission_priority 4 4 false (by norm_num)).2 (by norm_num)⟩

/-- Claim C4: an `Unordered(N)` stage keeps at most N tasks in flight in
every reachable state; a new item is admitted only when fewer than N tasks
are in flight, and any completed in-flight task can be sent downstream and
removed regardless of its admission position. -/
theorem C4_inflight_bounded :
    (∀ {α β : Type} (f : α → β) (N : Nat) (input : List α) (s : PoolState α β),
        Relation.ReflTransGen (PoolStep f N) (PoolState.init input) s →
        s.inflight.length ≤ N) ∧
    (∀ {α β : Type} (f : α → β) (N : Nat) (s s' : PoolState α β),
        PoolStep f N s s' → s'.upstream ≠ s.upstream → s.inflight.length < N) ∧
    (∀ {α β : Type} (f : α → β) (N : Nat) (s : PoolState α β) (l1 : List β) (b : β)
        (l2 : List β), s.inflight = l1 ++ b :: l2 →
        PoolStep f N s ⟨s.upstream, l1 ++ l2, s.output ++ [b]⟩) := by
  refine ⟨?_, ?_, ?_⟩
  · intro α β f N input s h
    induction h with
    | refl => simp [PoolState.init]
    | tail _ hstep ih => exact poolStep_len_le hstep ih
  · intro α β f N s s' hstep hne
    cases hstep with
    | admitItem x rest s hup hlen => exact hlen
    | drain l1 l2 b s hin => exact absurd rfl hne
  · intro α β f N s l1 b l2 hin
    exact PoolStep.drain l1 l2 b s hin

/-- Witness for C4: the initial state of a pool over `[0, 1]` has at most 2
tasks in flight. -/
theorem C4_inflight_bounded_witness :
    (PoolState.init ([0, 1] : List Nat) : PoolState Nat Nat).inflight.length ≤ 2 :=
  C4_inflight_bounded.1 id 2 [0, 1] (PoolState.init [0, 1]) Relation.ReflTransGen.refl

/-- Claim C5 counterexample: stage 1 fails at instant 10 while stage 3 fails
at instant 1; `try_join!` resolves to stage 3's failure (the first in time),
not to the earliest failed stage in pipeline order as the claim states. -/
theorem C5_stage_order_counterexample :
    tryJoin3 (Except.error 1) (Except.ok ()) (Except.error 3) 10 5 1 =
      (Except.error 3 : Except Nat Unit) ∧
    (Except.error 3 : Except Nat Unit) ≠ Except.error 1 := by
  constructor
  · rfl
  · intro h
    simp at h

/-- Claim C5 (amended): `tokio::try_join!(h1, h2, h3)` resolves to success
when every stage task completes cleanly, and otherwise to the failure that
settles first in time — a later stage that fails earlier in time wins, and
the earlier branch wins only when it fails no later. -/
theorem C5_first_failure_in_time {ε : Type} :
    (∀ t1 t2 t3 : Nat,
        tryJoin3 (Except.ok ()) (Except.ok ()) (Except.ok ()) t1 t2 t3 =
          (Except.ok () : Except ε Unit)) ∧
    (∀ (e1 e3 : ε) (t1 t2 t3 : Nat), t3 < t1 →
        tryJoin3 (Except.error e1) (Except.ok ()) (Except.error e3) t1 t2 t3 =
          Except.error e3) ∧
    (∀ (e1 e3 : ε) (t1 t2 t3 : Nat), t1 ≤ t3 →
        tryJoin3 (Except.error e1) (Except.ok ()) (Except.error e3) t1 t2 t3 =
          Except.error e1) := by
  refine ⟨?_, ?_, ?_⟩
  · intro t1 t2 t3
    rfl
  · intro e1 e3 t1 t2 t3 h
    simp [tryJoin3, errEvents, firstFailure, h]
  · intro e1 e3 t1 t2 t3 h
    have h2 : ¬ t3 < t1 := not_lt.mpr h
    simp [tryJoin3, errEvents, firstFailure, h2]

/-- Witness for the amended C5: with stage 1 failing at 10 and stage 3 at 1,
the result is stage 3's error; with stage 1 failing at 0, stage 1's error. -/
theorem C5_first_failure_in_time_witness :
    tryJoin3 (Except.error 1) (Except.ok ()) (Except.error 3) 10 5 1 =
      (Except.error 3 : Except Nat Unit) ∧
    tryJoin3 (Except.error 1) (Except.ok ()) (Except.error 3) 0 5 1 =
      (Except.error 1 : Except Nat Unit) :=
  ⟨C5_first_failure_in_time.2.1 1 3 10 5 1 (by norm_num),
   C5_first_failure_in_time.2.2 1 3 0 5 1 (by norm_num)⟩

/-- Claim C6: a stage's worker-pool loop can take a step exactly when it is
not yet terminal (upstream closed and drained with an empty in-flight set),
every step strictly decreases a natural measure (so every run terminates),
and a finite source of K items yields exactly K items at the sink. -/
theorem C6_termination :
    (∀ {α β : Type} (f : α → β) (N : Nat), 1 ≤ N → ∀ s : PoolState α β,
        (∃ s', PoolStep f N s s') ↔ ¬(s.upstream = [] ∧ s.inflight = [])) ∧
    (∀ {α β : Type} (f : α → β) (N : Nat) (s s' : PoolState α β),
        PoolStep f N s s' → poolMeasure s' < poolMeasure s) ∧
    (∀ {α β γ δ : Type} (f1 : α → β) (f2 : β → γ) (f3 : γ → δ)
        (N1 N2 N3 K : Nat) (input : List α) (out1 : List β) (out2 : List γ)
        (out3 : List δ), input.length = K →
        PoolReaches f1 N1 input out1 → PoolReaches f2 N2 out1 out2 →
        PoolReaches f3 N3 out2 out3 → out3.length = K) := by
  refine ⟨?_, ?_, ?_⟩
  · intro α β f N hN s
    constructor
    · rintro ⟨s', hstep⟩ ⟨hup, hin⟩
      cases hstep with
      | admitItem x rest s h1 h2 => simp [hup] at h1
      | drain l1 l2 b s h1 => simp [hin] at h1
    · intro hne
      rcases hq : s.inflight with _ | ⟨b, rest⟩
      · rcases hu : s.upstream with _ | ⟨x, xs⟩
        · exact absurd ⟨hu, hq⟩ hne
        · exact ⟨_, PoolStep.admitItem x xs s hu (by rw [hq]; simpa using hN)⟩
      · exact ⟨_, PoolStep.drain [] rest b s (by simp [hq])⟩
  · intro α β f N s s' hstep
    cases hstep with
    | admitItem x rest s hup hlen =>
        simp only [poolMeasure, hup, List.length_cons, List.length_append, List.length_nil]
        omega
    | drain l1 l2 b s hin =>
        simp only [poolMeasure, hin, List.length_append, List.length_cons, List.length_nil]
        omega
  · intro α β γ δ f1 f2 f3 N1 N2 N3 K input out1 out2 out3 hK h1 h2 h3
    have p1 := (poolReaches_perm h1).length_eq
    have p2 := (poolReaches_perm h2).length_eq
    have p3 := (poolReaches_perm h3).length_eq
    simp only [List.length_map] at p1 p2 p3
    omega

/-- Witness for C6: three one-worker identity stages over `0..4` deliver
exactly 5 items. -/
theorem C6_termination_witness : ([0, 1, 2, 3, 4] : List Nat).length = 5 := by
  have hrun : ∀ l : List Nat, PoolReaches id 1 l l := by
    intro l
    simpa using pool_seq_reaches id 1 (by norm_num) l
  exact C6_termination.2.2 id id id 1 1 1 5 [0, 1, 2, 3, 4] _ _ _ (by norm_num)
    (hrun _) (hrun _) (hrun _)

/-- Claim C7: after `close()`, every send attempt fails deterministically
and never enqueues, closing is idempotent, and receive attempts keep
returning the already-buffered items in FIFO order until the buffer is
empty, after which every receive attempt yields the end-of-stream signal
and never a value. -/
theorem C7_closed_channel :
    (∀ {α : Type} (c : Channel α) (x : α),
        (c.close).send x = SendResult.closedError) ∧
    (∀ {α : Type} (c : Channel α), c.close.close = c.close) ∧
    (∀ {α : Type} (c : Channel α) (k : Nat),
        (Channel.recvN k c.close).1 =
          (c.buffer.take k).map some ++ List.replicate (k - c.buffer.length) none) := by
  refine ⟨?_, ?_, ?_⟩
  · intro α c x
    simp [Channel.send, Channel.close]
  · intro α c
    simp [Channel.close]
  · intro α c k
    rw [recvN_spec]
    simp [Channel.close]

/-- Claim C8: a pipeline configuration containing a stage with concurrency
below 1 or an explicit backpressure capacity below 1 fails at `build()` time
with a `MisconfiguredStage` error naming a stage index, and never yields a
runnable pipeline, so no such configuration processes an item. -/
theorem C8_misconfigured_build_fails (stages : List StageConfig)
    (h : ∃ st ∈ stages,
        st.concurrency < 1 ∨ ∃ cap, st.backpressure = some cap ∧ cap < 1) :
    (∃ i, build stages = Except.error (BuildError.misconfiguredStage i)) ∧
    ∀ runnable, build stages ≠ Except.ok runnable := by
  have hbad : ∃ st ∈ stages, st.valid = false := by
    rcases h with ⟨st, hmem, hcase⟩
    refine ⟨st, hmem, ?_⟩
    rcases hcase with hc | ⟨cap, hbp, hcap⟩
    · simp [StageConfig.valid]
      omega
    · simp [StageConfig.valid, hbp]
      intro _
      omega
  rcases buildScan_invalid stages 0 hbad with ⟨i, hi⟩
  refine ⟨⟨i, ?_⟩, ?_⟩
  · simp [build, hi]
  · intro runnable hok
    simp [build, hi] at hok

/-- Witness for C8: a single stage with concurrency 0 is rejected at
`build()` time. -/
theorem C8_misconfigured_build_fails_witness :
    (∃ i, build [⟨0, false, none⟩] =
        Except.error (BuildError.misconfiguredStage i)) ∧
    ∀ runnable, build [⟨0, false, none⟩] ≠ Except.ok runnable :=
  C8_misconfigured_build_fails [⟨0, false, none⟩]
    ⟨⟨0, false, none⟩, by simp, Or.inl (by norm_num)⟩

/-- Claim C9: with the same input `0..n-1` and the same per-item timing
vectors, the stream-combinator implementation (`run_with_stream`: three
`map`/`buffer_unordered` stages) and the pipeline-engine implementation
(`run_with_pumps`: two unordered stages and one ordered stage) produce the
same multiset of outputs, and both sums equal `(n-1)*n/2`. -/
theorem C9_stream_pumps_equivalent (n c : Nat)
    (timings1 timings2 timings3 : Nat → Nat)
    (s1 s2 s3 p1 p2 p3 : List Nat)
    (hs1 : PoolReaches (fun i => work i (timings1 i)) c (List.range n) s1)
    (hs2 : PoolReaches (fun i => work i (timings2 i)) c s1 s2)
    (hs3 : PoolReaches (fun i => work i (timings3 i)) c s2 s3)
    (hp1 : PoolReaches (fun i => work i (timings1 i)) c (List.range n) p1)
    (hp2 : PoolReaches (fun i => work i (timings2 i)) c p1 p2)
    (hp3 : OrdReaches (fun i => work i (timings3 i)) c p2 p3) :
    s3.Perm p3 ∧ s3.sum = (n - 1) * n / 2 ∧ p3.sum = (n - 1) * n / 2 := by
  have idmap : ∀ (t : Nat → Nat) (l : List Nat),
      l.map (fun i => work i (t i)) = l := by
    intro t l
    simp [work]
  have hs : s3.Perm (List.range n) := by
    have q1 := poolReaches_perm hs1
    have q2 := poolReaches_perm hs2
    have q3 := poolReaches_perm hs3
    rw [idmap] at q1 q2 q3
    exact q3.trans (q2.trans q1)
  have hp : p3.Perm (List.range n) := by
    have q1 := poolReaches_perm hp1
    have q2 := poolReaches_perm hp2
    have q3 := ordReaches_eq hp3
    rw [idmap] at q1 q2 q3
    rw [q3]
    exact q2.trans q1
  refine ⟨hs.trans hp.symm, ?_, ?_⟩
  · rw [hs.sum_eq, list_range_sum]
  · rw [hp.sum_eq, list_range_sum]

/-- Witness for C9 at `n = 6`, one worker slot per stage, constant timings. -/
theorem C9_stream_pumps_equivalent_witness :
    (List.range 6).Perm (List.range 6) ∧
    (List.range 6).sum = (6 - 1) * 6 / 2 ∧
    (List.range 6).sum = (6 - 1) * 6 / 2 := by
  have hpool : ∀ l : List Nat,
      PoolReaches (fun i => work i ((fun _ => 7) i)) 1 l l := by
    intro l
    have := pool_seq_reaches (fun i => work i ((fun _ => 7) i)) 1 (by norm_num) l
    simpa [work] using this
  have hord : ∀ l : List Nat,
      OrdReaches (fun i => work i ((fun _ => 7) i)) 1 l l := by
    intro l
    have := ord_seq_reaches (fun i => work i ((fun _ => 7) i)) 1 (by norm_num) l
    simpa [work] using this
  exact C9_stream_pumps_equivalent 6 1 (fun _ => 7) (fun _ => 7) (fun _ => 7)
    (List.range 6) (List.range 6) (List.range 6)
    (List.range 6) (List.range 6) (List.range 6)
    (hpool _) (hpool _) (hpool _) (hpool _) (hpool _) (hord _)

/-- Claim C10: the example pipeline's workers preserve the url field:
`download_image` returns an image whose url is its input url, and
`process_image` keeps its input's url and replaces only the data; hence
every url observed at the sink is one the source sent. -/
theorem C10_url_preserved :
    (∀ u : String, (download_image u).url = u) ∧
    (∀ img : Image, (process_image img).url = img.url) ∧
    (∀ img : Image, process_image img = { url := img.url, data := [1] }) ∧
    (∀ (urls : List String) (N1 N2 N3 : Nat) (out1 out2 : List Image)
        (out3 : List String),
        PoolReaches download_image N1 urls out1 →
        PoolReaches process_image N2 out1 out2 →
        PoolReaches Image.url N3 out2 out3 →
        ∀ u ∈ out3, u ∈ urls) := by
  refine ⟨fun u => rfl, fun img => rfl, fun img => rfl, ?_⟩
  intro urls N1 N2 N3 out1 out2 out3 h1 h2 h3 u hu
  have p1 := poolReaches_perm h1
  have p2 := poolReaches_perm h2
  have p3 := poolReaches_perm h3
  have hperm : out3.Perm urls := by
    have h := p3.trans ((p2.map Image.url).trans ((p1.map process_image).map Image.url))
    have hcomp : ((urls.map download_image).map process_image).map Image.url = urls := by
      simp only [List.map_map]
      have : (Image.url ∘ process_image ∘ download_image) = fun u => u := rfl
      rw [this, List.map_id']
    rw [hcomp] at h
    exact h
  exact hperm.mem_iff.mp hu

/-- Witness for C10: with source urls `["a", "b"]` and one worker slot per
stage, the url `"a"` observed at the sink was sent by the source. -/
theorem C10_url_preserved_witness : ("a" : String) ∈ (["a", "b"] : List String) := by
  have h1 : PoolReaches download_image 1 ["a", "b"] (["a", "b"].map download_image) :=
    pool_seq_reaches download_image 1 (by norm_num) ["a", "b"]
  have h2 : PoolReaches process_image 1 (["a", "b"].map download_image)
      ((["a", "b"].map download_image).map process_image) :=
    pool_seq_reaches process_image 1 (by norm_num) (["a", "b"].map download_image)
  have h3 : PoolReaches Image.url 1 ((["a", "b"].map download_image).map process_image)
      (((["a", "b"].map download_image).map process_image).map Image.url) :=
    pool_seq_reaches Image.url 1 (by norm_num)
      ((["a", "b"].map download_image).map process_image)
  refine C10_url_preserved.2.2.2 ["a", "b"] 1 1 1 _ _ _ h1 h2 h3 "a" ?_
  simp [download_image, process_image]

end AsyncPipeline
